import Mathlib

/-!
Shallow embedding of two libpag components and proofs about them:

* `BitmapSequenceReader` (src/rendering/sequences/BitmapSequenceReader.cpp):
  the incremental frame decode-and-cache engine (`findStartFrame`,
  `onMakeBuffer`).
* `GLYUVTextureEffect` (tgfx/src/opengl/GLYUVTextureEffect.cpp): YUV-to-RGB
  shader emission (`emitCode`), uniform upload (`onSetData`) and the fixed
  color-conversion matrices.

Modelling conventions: a pixel is a natural number (0 = fully transparent);
the image-codec collaborator is a parameter (`DecodeEnv`) mapping a patch's
file bytes to an optional codec carrying declared dimensions, a
decode-success flag for `readPixels`, and a total pixel function; the canvas
is its dimensions plus a total pixel function (coordinates outside the canvas
bounds are never observed by any statement below).  Mutation is explicit
state passing.  The replay results carry two ghost observations that do not
influence any pixel or state: the number of `readPixels` invocations, and
whether `eraseAll` was invoked.
-/

/-- A raster pixel value; 0 is fully transparent. -/
abbrev Pixel := Nat

/-- FrameCanvas: the persistent raster buffer owned by the reader
(`pixelBuffer` wrapped in a `Pixmap` in the source). -/
structure Canvas where
  width : Nat
  height : Nat
  data : Nat → Nat → Pixel

/-- Pixmap::eraseAll: every pixel becomes fully transparent. -/
def Canvas.eraseAll (c : Canvas) : Canvas :=
  { c with data := fun _ _ => 0 }

/-- The freshly constructed canvas: `PixelBuffer::Make` followed by
`Pixmap::eraseAll` in the reader's constructor. -/
def Canvas.mkBlank (w h : Nat) : Canvas :=
  ⟨w, h, fun _ _ => 0⟩

/-- Reading one pixel of the canvas. -/
def Canvas.getPixel (c : Canvas) (r col : Nat) : Pixel :=
  c.data r col

/-- An image codec as returned by `tgfx::ImageCodec::MakeFrom`: decoded
dimensions, whether `readPixels` succeeds, and the decoded pixels. -/
structure Codec where
  width : Nat
  height : Nat
  decodeOK : Bool
  pixelAt : Nat → Nat → Pixel

/-- A BitmapRect patch descriptor: destination offset and encoded bytes. -/
structure BitmapRect where
  x : Nat
  y : Nat
  fileBytes : List Nat
  deriving DecidableEq

/-- A BitmapFrame record: keyframe flag plus the ordered patch list. -/
structure BitmapFrame where
  isKeyframe : Bool
  bitmaps : List BitmapRect

instance : Inhabited BitmapFrame := ⟨⟨false, []⟩⟩

/-- The image-codec collaborator: maps encoded bytes to a codec, or `none`
when `ImageCodec::MakeFrom` returns `nullptr` (an empty frame patch). -/
abbrev DecodeEnv := List Nat → Option Codec

/-- Blit of a decoded patch at offset `(x, y)`: `codec->readPixels` writing
through the canvas's row stride, overwriting (no blending).  Writes are the
`codec.width × codec.height` rectangle anchored at `(x, y)`. -/
def Canvas.paint (c : Canvas) (x y : Nat) (codec : Codec) : Canvas :=
  { c with data := fun r col =>
      if x ≤ col ∧ col < x + codec.width ∧ y ≤ r ∧ r < y + codec.height then
        codec.pixelAt (r - y) (col - x)
      else c.data r col }

/-- The stopping condition of the backward scan in `findStartFrame`: the
index right after the last painted frame, or a keyframe.  The source checks
the two disjuncts with a short-circuit `||` in this order; both are total, so
the evaluation order is not observable. -/
def startCond (frames : List BitmapFrame) (last : Int) (j : Nat) : Prop :=
  (j : Int) = last + 1 ∨ (frames.getD j default).isKeyframe = true

instance startCond.instDecidable (frames : List BitmapFrame) (last : Int) (j : Nat) :
    Decidable (startCond frames last j) := by
  unfold startCond
  exact inferInstance

/-- The backward scan of `findStartFrame` over non-negative frame indices:
scan from `t` down to 0, stop at the first index satisfying `startCond`;
reaching 0 yields 0 whether or not the condition holds there. -/
def findStartAux (frames : List BitmapFrame) (last : Int) : Nat → Nat
  | 0 => 0
  | t + 1 =>
      if startCond frames last (t + 1) then t + 1 else findStartAux frames last t

/-- BitmapSequenceReader::findStartFrame.  A negative `targetFrame` skips the
scan loop entirely and returns the initial `startFrame = 0`. -/
def findStartFrame (frames : List BitmapFrame) (last : Int) (targetFrame : Int) : Nat :=
  if targetFrame < 0 then 0 else findStartAux frames last targetFrame.toNat

theorem findStartFrame_natCast (frames : List BitmapFrame) (last : Int) (t : Nat) :
    findStartFrame frames last (t : Int) = findStartAux frames last t := by
  simp [findStartFrame]

theorem findStartAux_le (frames : List BitmapFrame) (last : Int) (t : Nat) :
    findStartAux frames last t ≤ t := by
  induction t with
  | zero => simp [findStartAux]
  | succ t ih =>
      simp only [findStartAux]
      by_cases h : startCond frames last (t + 1)
      · simp [h]
      · simp only [if_neg h]
        exact ih.trans (Nat.le_succ t)

theorem findStartAux_spec (frames : List BitmapFrame) (last : Int) (t : Nat) :
    findStartAux frames last t ≤ t ∧
    (∀ j, j ≤ t → findStartAux frames last t < j → ¬ startCond frames last j) ∧
    (startCond frames last (findStartAux frames last t) ∨ findStartAux frames last t = 0) := by
  induction t with
  | zero =>
      refine ⟨Nat.le_refl _, ?_, Or.inr rfl⟩
      intro j hj hlt
      simp only [findStartAux] at hlt
      omega
  | succ t ih =>
      obtain ⟨ih1, ih2, ih3⟩ := ih
      simp only [findStartAux]
      by_cases h : startCond frames last (t + 1)
      · simp only [if_pos h]
        refine ⟨Nat.le_refl _, ?_, Or.inl h⟩
        intro j hj hlt
        omega
      · simp only [if_neg h]
        refine ⟨ih1.trans (Nat.le_succ t), ?_, ih3⟩
        intro j hj hlt
        rcases Nat.lt_succ_iff_lt_or_eq.mp (Nat.lt_succ_of_le hj) with hj' | hj'
        · exact ih2 j (Nat.lt_succ_iff.mp hj') hlt
        · subst hj'
          exact h

/-- C1: for every `targetFrame` and every `lastPaintedFrame` state,
`findStartFrame` returns the largest index `s` with `0 ≤ s ≤ targetFrame`
such that `s = lastPaintedFrame + 1` or `FrameRecord[s].isKeyframe`, and
returns 0 when no index in `[0, targetFrame]` satisfies either condition.
The two conditions are combined by a short-circuit `||` whose left operand is
the `lastPaintedFrame + 1` check, exactly as the claim orders them (the order
is not otherwise observable since both tests are total). -/
theorem findStartFrame_spec (frames : List BitmapFrame) (last : Int) (t : Nat)
    (ht : t < frames.length) :
    findStartFrame frames last (t : Int) ≤ t ∧
    (∀ j, j ≤ t → findStartFrame frames last (t : Int) < j →
      ¬ startCond frames last j) ∧
    (startCond frames last (findStartFrame frames last (t : Int)) ∨
      findStartFrame frames last (t : Int) = 0) := by
  have _ := ht
  rw [findStartFrame_natCast]
  exact findStartAux_spec frames last t

/-- A small concrete frame table used by witnesses: keyframe, delta, keyframe. -/
def wFrames : List BitmapFrame :=
  [⟨true, []⟩, ⟨false, []⟩, ⟨true, []⟩]

/-- Witness for C1: concrete run with `targetFrame = 1`, no painted frame. -/
theorem findStartFrame_spec_witness :
    1 < wFrames.length ∧
    (findStartFrame wFrames (-1) (1 : Nat) ≤ 1 ∧
    (∀ j, j ≤ 1 → findStartFrame wFrames (-1) (1 : Nat) < j →
      ¬ startCond wFrames (-1) j) ∧
    (startCond wFrames (-1) (findStartFrame wFrames (-1) (1 : Nat)) ∨
      findStartFrame wFrames (-1) (1 : Nat) = 0)) :=
  ⟨by decide, findStartFrame_spec wFrames (-1) 1 (by decide)⟩

/-- The outcome of processing the patch list of one frame: the resulting
canvas, whether every attempted `readPixels` succeeded, plus two ghost
observations (the number of `readPixels` invocations, and whether `eraseAll`
was invoked) that influence nothing else. -/
structure RectsResult where
  canvas : Canvas
  ok : Bool
  decodes : Nat
  erased : Bool

/-- The inner loop of `onMakeBuffer` over one frame's `bitmaps` list: a
`nullptr` codec is skipped; the first decoded patch of a keyframe whose
dimensions differ from the canvas triggers `eraseAll`; a failing
`readPixels` aborts immediately. -/
def processRects (env : DecodeEnv) (isKey : Bool) :
    Canvas → Bool → List BitmapRect → RectsResult
  | canvas, _, [] => ⟨canvas, true, 0, false⟩
  | canvas, firstRead, rect :: rest =>
    match env rect.fileBytes with
    | none => processRects env isKey canvas firstRead rest
    | some codec =>
      let doErase := firstRead && isKey &&
        !(codec.width == canvas.width && codec.height == canvas.height)
      let canvas1 := if doErase then canvas.eraseAll else canvas
      if codec.decodeOK then
        let r := processRects env isKey (canvas1.paint rect.x rect.y codec) false rest
        ⟨r.canvas, r.ok, r.decodes + 1, doErase || r.erased⟩
      else ⟨canvas1, false, 1, doErase⟩

/-- Replay of one frame: the patch loop started with `firstRead = true`. -/
def processFrame (env : DecodeEnv) (canvas : Canvas) (f : BitmapFrame) : RectsResult :=
  processRects env f.isKeyframe canvas true f.bitmaps

/-- The outcome of replaying a range of frames. -/
structure ReplayResult where
  canvas : Canvas
  ok : Bool
  decodes : Nat

/-- The outer loop of `onMakeBuffer` over the frames from `startFrame`
through `targetFrame`, aborting on the first failed patch decode. -/
def replayList (env : DecodeEnv) : Canvas → List BitmapFrame → ReplayResult
  | canvas, [] => ⟨canvas, true, 0⟩
  | canvas, f :: fs =>
    let r := processFrame env canvas f
    if r.ok then
      let r2 := replayList env r.canvas fs
      ⟨r2.canvas, r2.ok, r.decodes + r2.decodes⟩
    else ⟨r.canvas, false, r.decodes⟩

/-- The frame records visited by the loop `for frame in [startFrame,
target]`. -/
def framesToReplay (frames : List BitmapFrame) (startFrame target : Nat) :
    List BitmapFrame :=
  (frames.drop startFrame).take (target + 1 - startFrame)

/-- The mutable fields of `BitmapSequenceReader` touched by `onMakeBuffer`:
the pixel buffer (`none` models a failed allocation) and `lastDecodeFrame`
(-1 = none). -/
structure ReaderState where
  pixelBuffer : Option Canvas
  lastDecodeFrame : Int

/-- What one `onMakeBuffer` call produces: the returned buffer (`none` for
`nullptr`), the reader state after the call, and the ghost count of
`readPixels` invocations performed by the call. -/
structure BufferResult where
  result : Option Canvas
  state : ReaderState
  decodes : Nat

/-- BitmapSequenceReader::onMakeBuffer.  The fast path returns the buffer
unchanged when `lastDecodeFrame == targetFrame`; a null buffer returns
`nullptr`; a negative `targetFrame` makes the replay loop body run zero
times, so the buffer is returned as is with `lastDecodeFrame` set to
`targetFrame`; otherwise the patches from `findStartFrame`'s result through
`targetFrame` are replayed, `lastDecodeFrame` ending as `targetFrame` on
success and as -1 (the value stored before the loop) on failure. -/
def onMakeBuffer (env : DecodeEnv) (frames : List BitmapFrame) (st : ReaderState)
    (targetFrame : Int) : BufferResult :=
  if st.lastDecodeFrame = targetFrame then ⟨st.pixelBuffer, st, 0⟩
  else
    match st.pixelBuffer with
    | none => ⟨none, st, 0⟩
    | some canvas =>
      if targetFrame < 0 then ⟨some canvas, ⟨some canvas, targetFrame⟩, 0⟩
      else
        let r := replayList env canvas (framesToReplay frames
          (findStartFrame frames st.lastDecodeFrame targetFrame) targetFrame.toNat)
        if r.ok then ⟨some r.canvas, ⟨some r.canvas, targetFrame⟩, r.decodes⟩
        else ⟨none, ⟨some r.canvas, -1⟩, r.decodes⟩

/-- Every patch of every listed frame whose bytes decode to a codec passes
`readPixels`. -/
def patchesAllDecode (env : DecodeEnv) (fs : List BitmapFrame) : Prop :=
  ∀ f ∈ fs, ∀ r ∈ f.bitmaps, ∀ cod, env r.fileBytes = some cod → cod.decodeOK = true

theorem processRects_ok_iff (env : DecodeEnv) (isKey : Bool) :
    ∀ (rects : List BitmapRect) (canvas : Canvas) (firstRead : Bool),
    (processRects env isKey canvas firstRead rects).ok = true ↔
      ∀ r ∈ rects, ∀ cod, env r.fileBytes = some cod → cod.decodeOK = true := by
  intro rects
  induction rects with
  | nil => simp [processRects]
  | cons rect rest ih =>
      intro canvas firstRead
      cases henv : env rect.fileBytes with
      | none =>
          simp only [processRects, henv, List.forall_mem_cons, ih]
          simp [henv]
      | some codec =>
          by_cases hok : codec.decodeOK = true
          · simp only [processRects, henv, hok, if_true, List.forall_mem_cons, ih]
            simp [henv, hok]
          · simp only [processRects, henv, List.forall_mem_cons]
            simp only [Bool.not_eq_true] at hok
            simp only [hok, Bool.false_eq_true, if_false]
            constructor
            · intro h
              exact absurd h (by simp)
            · intro h
              have hc : codec.decodeOK = true := h.1 codec rfl
              simp [hok] at hc

theorem replayList_ok_iff (env : DecodeEnv) :
    ∀ (fs : List BitmapFrame) (canvas : Canvas),
    (replayList env canvas fs).ok = true ↔ patchesAllDecode env fs := by
  intro fs
  induction fs with
  | nil => simp [replayList, patchesAllDecode]
  | cons f fs ih =>
      intro canvas
      by_cases hr : (processFrame env canvas f).ok = true
      · have hstep : (replayList env canvas (f :: fs)).ok
            = (replayList env (processFrame env canvas f).canvas fs).ok := by
          simp [replayList, hr]
        rw [hstep, ih]
        have hf := (processRects_ok_iff env f.isKeyframe f.bitmaps canvas true).mp hr
        constructor
        · intro h g hg
          rcases List.mem_cons.mp hg with h1 | h2
          · subst h1
            exact hf
          · exact h g h2
        · intro h g hg
          exact h g (List.mem_cons_of_mem f hg)
      · have hr' := Bool.not_eq_true _ |>.mp hr
        have hstep : (replayList env canvas (f :: fs)).ok = false := by
          simp [replayList, hr']
        rw [hstep]
        simp only [Bool.false_eq_true, false_iff]
        intro h
        have hall := fun r hrm => h f (List.mem_cons_self f fs) r hrm
        have hok := (processRects_ok_iff env f.isKeyframe f.bitmaps canvas true).mpr hall
        exact hr hok

/-- C2: for every replay in `buffer(targetFrame)` (fast path not taken,
buffer allocated, `targetFrame` non-negative), the marker `lastDecodeFrame`
is -1 when the call returns without a result (it was stored as -1 before the
loop and is overwritten only after the loop completes), the call produces a
result exactly when every patch of every replayed frame decodes
successfully, and only then is the marker set to `targetFrame`. -/
theorem onMakeBuffer_failure_marker (env : DecodeEnv) (frames : List BitmapFrame)
    (st : ReaderState) (targetFrame : Int) (canvas : Canvas) (B : BufferResult)
    (hB : B = onMakeBuffer env frames st targetFrame)
    (hne : st.lastDecodeFrame ≠ targetFrame) (hbuf : st.pixelBuffer = some canvas)
    (hpos : 0 ≤ targetFrame) :
    (B.result = none → B.state.lastDecodeFrame = -1) ∧
    (B.result.isSome = true ↔
      patchesAllDecode env (framesToReplay frames
        (findStartFrame frames st.lastDecodeFrame targetFrame) targetFrame.toNat)) ∧
    (B.result.isSome = true → B.state.lastDecodeFrame = targetFrame) := by
  have hlt : ¬ targetFrame < 0 := not_lt.mpr hpos
  subst hB
  simp only [onMakeBuffer, if_neg hne, hbuf, if_neg hlt]
  by_cases hr : (replayList env canvas (framesToReplay frames
      (findStartFrame frames st.lastDecodeFrame targetFrame) targetFrame.toNat)).ok = true
  · rw [replayList_ok_iff] at hr
    simp [hr, replayList_ok_iff]
  · have hr' := hr
    rw [replayList_ok_iff] at hr'
    simp only [Bool.not_eq_true] at hr
    simp [hr, hr']

/-- Concrete witness data: a codec that decodes a 1x1 patch successfully. -/
def wCodecOK : Codec := ⟨1, 1, true, fun _ _ => 7⟩

/-- Concrete witness data: a codec whose `readPixels` fails. -/
def wCodecBad : Codec := ⟨1, 1, false, fun _ _ => 0⟩

/-- Witness decode environment where every patch decodes successfully. -/
def wEnvOK : DecodeEnv := fun _ => some wCodecOK

/-- Witness decode environment where every `readPixels` fails. -/
def wEnvBad : DecodeEnv := fun _ => some wCodecBad

/-- Witness sequence: a single keyframe with one patch. -/
def wFrames2 : List BitmapFrame := [⟨true, [⟨0, 0, [0]⟩]⟩]

/-- Witness reader state: freshly constructed, 2x2 canvas. -/
def wState0 : ReaderState := ⟨some (Canvas.mkBlank 2 2), -1⟩

/-- Witness for C2: the one keyframe of `wFrames2` decodes fully, so the
call produces a result and marks frame 0 as painted. -/
theorem onMakeBuffer_failure_marker_witness :
    (wState0.lastDecodeFrame ≠ 0 ∧ wState0.pixelBuffer = some (Canvas.mkBlank 2 2) ∧
      (0 : Int) ≤ 0) ∧
    (((onMakeBuffer wEnvOK wFrames2 wState0 0).result = none →
      (onMakeBuffer wEnvOK wFrames2 wState0 0).state.lastDecodeFrame = -1) ∧
    ((onMakeBuffer wEnvOK wFrames2 wState0 0).result.isSome = true ↔
      patchesAllDecode wEnvOK (framesToReplay wFrames2
        (findStartFrame wFrames2 wState0.lastDecodeFrame 0) (0 : Int).toNat)) ∧
    ((onMakeBuffer wEnvOK wFrames2 wState0 0).result.isSome = true →
      (onMakeBuffer wEnvOK wFrames2 wState0 0).state.lastDecodeFrame = 0)) :=
  ⟨⟨by decide, rfl, by decide⟩,
    onMakeBuffer_failure_marker wEnvOK wFrames2 wState0 0 (Canvas.mkBlank 2 2)
      (onMakeBuffer wEnvOK wFrames2 wState0 0) rfl (by decide) rfl (by decide)⟩

/-- The first patch of a list whose bytes decode to a codec; patches with a
null codec are skipped, exactly as the `firstRead` flag in the source is left
`true` across them. -/
def firstDecodedCodec (env : DecodeEnv) : List BitmapRect → Option Codec
  | [] => none
  | r :: rs =>
    match env r.fileBytes with
    | some c => some c
    | none => firstDecodedCodec env rs

theorem processRects_notFirst_erased (env : DecodeEnv) (isKey : Bool) :
    ∀ (rects : List BitmapRect) (canvas : Canvas),
    (processRects env isKey canvas false rects).erased = false := by
  intro rects
  induction rects with
  | nil =>
      intro canvas
      simp [processRects]
  | cons rect rest ih =>
      intro canvas
      cases henv : env rect.fileBytes with
      | none => simp only [processRects, henv]; exact ih canvas
      | some codec =>
          by_cases hok : codec.decodeOK = true
          · simp [processRects, henv, hok, ih]
          · have hok' := Bool.not_eq_true _ |>.mp hok
            simp [processRects, henv, hok']

theorem processRects_first_erased (env : DecodeEnv) (isKey : Bool) :
    ∀ (rects : List BitmapRect) (canvas : Canvas),
    (processRects env isKey canvas true rects).erased =
      (isKey && match firstDecodedCodec env rects with
        | none => false
        | some cod => !(cod.width == canvas.width && cod.height == canvas.height)) := by
  intro rects
  induction rects with
  | nil =>
      intro canvas
      simp [processRects, firstDecodedCodec]
  | cons rect rest ih =>
      intro canvas
      cases henv : env rect.fileBytes with
      | none =>
          simp only [processRects, henv, firstDecodedCodec]
          exact ih canvas
      | some codec =>
          by_cases hok : codec.decodeOK = true
          · simp [processRects, henv, hok, firstDecodedCodec,
              processRects_notFirst_erased, Bool.and_comm]
          · have hok' := Bool.not_eq_true _ |>.mp hok
            simp [processRects, henv, hok', firstDecodedCodec, Bool.and_comm]

/-- C9: during replay, a patch whose bytes yield a null codec is skipped and
does not count as the keyframe's first patch for the clear decision; the
canvas is erased if and only if the frame is a keyframe and its first
non-null-decoding patch has decoded width or height different from (not only
smaller than) the canvas's width and height. -/
theorem erase_iff_first_decoded_mismatch (env : DecodeEnv) (canvas : Canvas)
    (f : BitmapFrame) :
    (processFrame env canvas f).erased =
      (f.isKeyframe && match firstDecodedCodec env f.bitmaps with
        | none => false
        | some cod => !(cod.width == canvas.width && cod.height == canvas.height)) := by
  rw [processFrame]
  exact processRects_first_erased env f.isKeyframe f.bitmaps canvas

/-- The canvas region a patch paints: the rectangle anchored at the patch
offset with the decoded codec's dimensions (empty when the codec is null). -/
def inPatchRegion (env : DecodeEnv) (rect : BitmapRect) (r col : Nat) : Prop :=
  ∃ cod, env rect.fileBytes = some cod ∧
    rect.x ≤ col ∧ col < rect.x + cod.width ∧ rect.y ≤ r ∧ r < rect.y + cod.height

theorem paint_outside (c : Canvas) (x y : Nat) (cod : Codec) (r col : Nat)
    (h : ¬(x ≤ col ∧ col < x + cod.width ∧ y ≤ r ∧ r < y + cod.height)) :
    (c.paint x y cod).data r col = c.data r col := by
  simp [Canvas.paint, h]

theorem processRects_outside (env : DecodeEnv) (isKey : Bool) (r col : Nat) :
    ∀ (rects : List BitmapRect) (canvas : Canvas),
    (∀ rect ∈ rects, ¬ inPatchRegion env rect r col) →
    (processRects env isKey canvas false rects).canvas.data r col =
      canvas.data r col := by
  intro rects
  induction rects with
  | nil =>
      intro canvas h
      simp [processRects]
  | cons rect rest ih =>
      intro canvas h
      have hhead := h rect (List.mem_cons_self rect rest)
      have htail := fun g hg => h g (List.mem_cons_of_mem rect hg)
      cases henv : env rect.fileBytes with
      | none =>
          simp only [processRects, henv]
          exact ih canvas htail
      | some codec =>
          have hbounds : ¬(rect.x ≤ col ∧ col < rect.x + codec.width ∧
              rect.y ≤ r ∧ r < rect.y + codec.height) := by
            intro hb
            exact hhead ⟨codec, henv, hb⟩
          by_cases hok : codec.decodeOK = true
          · simp only [processRects, henv, hok, if_true, Bool.false_and,
              Bool.false_eq_true, if_false]
            rw [ih _ htail]
            exact paint_outside canvas rect.x rect.y codec r col hbounds
          · have hok' := Bool.not_eq_true _ |>.mp hok
            simp only [processRects, henv, hok', Bool.false_eq_true, if_false,
              Bool.false_and]

theorem processRects_shrink_zero (env : DecodeEnv) (r col : Nat) :
    ∀ (rects : List BitmapRect) (canvas : Canvas) (cod : Codec),
    firstDecodedCodec env rects = some cod →
    cod.width ≠ canvas.width →
    (∀ rect ∈ rects, ¬ inPatchRegion env rect r col) →
    (processRects env true canvas true rects).canvas.data r col = 0 := by
  intro rects
  induction rects with
  | nil =>
      intro canvas cod hcod
      simp [firstDecodedCodec] at hcod
  | cons rect rest ih =>
      intro canvas cod hcod hwne hout
      have hhead := hout rect (List.mem_cons_self rect rest)
      have htail := fun g hg => hout g (List.mem_cons_of_mem rect hg)
      cases henv : env rect.fileBytes with
      | none =>
          simp only [firstDecodedCodec, henv] at hcod
          simp only [processRects, henv]
          exact ih canvas cod hcod hwne htail
      | some codec =>
          have hcc : codec = cod := by
            simp only [firstDecodedCodec, henv] at hcod
            exact Option.some.inj hcod
          subst hcc
          have hbeq : (codec.width == canvas.width) = false :=
            beq_eq_false_iff_ne.mpr hwne
          have hbounds : ¬(rect.x ≤ col ∧ col < rect.x + codec.width ∧
              rect.y ≤ r ∧ r < rect.y + codec.height) := by
            intro hb
            exact hhead ⟨codec, henv, hb⟩
          by_cases hok : codec.decodeOK = true
          · simp only [processRects, henv, hok, if_true, hbeq, Bool.false_and,
              Bool.not_false, Bool.and_true, Bool.true_and, if_true]
            rw [processRects_outside env true r col rest _ htail]
            rw [paint_outside _ rect.x rect.y codec r col hbounds]
            rfl
          · have hok' := Bool.not_eq_true _ |>.mp hok
            simp only [processRects, henv, hok', Bool.false_eq_true, if_false,
              hbeq, Bool.false_and, Bool.not_false, Bool.and_true, Bool.true_and,
              if_true]
            rfl

/-- C3: for a keyframe frame replayed by `buffer()`, if the first decoded
patch of the frame has decoded pixel dimensions smaller than the canvas, the
canvas is erased to fully transparent before that patch is painted, so every
pixel outside the regions painted by that keyframe's patches is transparent
after the frame is replayed. -/
theorem keyframe_clear_on_shrink (env : DecodeEnv) (canvas : Canvas)
    (f : BitmapFrame) (cod : Codec) (r col : Nat)
    (hkey : f.isKeyframe = true)
    (hcod : firstDecodedCodec env f.bitmaps = some cod)
    (hw : cod.width < canvas.width) (hh : cod.height < canvas.height)
    (hout : ∀ rect ∈ f.bitmaps, ¬ inPatchRegion env rect r col) :
    (processFrame env canvas f).canvas.data r col = 0 := by
  have _ := hh
  rw [processFrame, hkey]
  exact processRects_shrink_zero env r col f.bitmaps canvas cod hcod
    (Nat.ne_of_lt hw) hout

/-- Witness frame for C3: a keyframe with a null-codec patch first (skipped)
and then a decodable 1x1 patch at the origin. -/
def wFrames3 : List BitmapFrame := [⟨true, [⟨0, 0, [9]⟩, ⟨0, 0, [0]⟩]⟩]

/-- Witness decode environment for C3: bytes `[9]` yield a null codec, any
other bytes the 1x1 codec `wCodecOK`. -/
def wEnv3 : DecodeEnv := fun bs => if bs = [9] then none else some wCodecOK

/-- Witness for C3: on a 2x2 canvas, pixel (1,1) lies outside the single 1x1
decoded patch and is transparent after replaying the keyframe. -/
theorem keyframe_clear_on_shrink_witness :
    ((⟨true, [⟨0, 0, [9]⟩, ⟨0, 0, [0]⟩]⟩ : BitmapFrame).isKeyframe = true ∧
      firstDecodedCodec wEnv3 (⟨true, [⟨0, 0, [9]⟩, ⟨0, 0, [0]⟩]⟩ : BitmapFrame).bitmaps =
        some wCodecOK ∧
      wCodecOK.width < (Canvas.mkBlank 2 2).width ∧
      wCodecOK.height < (Canvas.mkBlank 2 2).height ∧
      (∀ rect ∈ (⟨true, [⟨0, 0, [9]⟩, ⟨0, 0, [0]⟩]⟩ : BitmapFrame).bitmaps,
        ¬ inPatchRegion wEnv3 rect 1 1)) ∧
    (processFrame wEnv3 (Canvas.mkBlank 2 2)
      ⟨true, [⟨0, 0, [9]⟩, ⟨0, 0, [0]⟩]⟩).canvas.data 1 1 = 0 := by
  have hout : ∀ rect ∈ (⟨true, [⟨0, 0, [9]⟩, ⟨0, 0, [0]⟩]⟩ : BitmapFrame).bitmaps,
      ¬ inPatchRegion wEnv3 rect 1 1 := by
    intro rect hrect
    rintro ⟨cod, hcod, hx, hx2, hy, hy2⟩
    rcases List.mem_cons.mp hrect with h1 | h2
    · subst h1
      simp [wEnv3] at hcod
    · rcases List.mem_cons.mp h2 with h3 | h4
      · subst h3
        simp only [wEnv3, if_neg (by decide : ¬([0] : List Nat) = [9])] at hcod
        have : cod = wCodecOK := (Option.some.inj hcod).symm
        subst this
        simp [wCodecOK] at hx2
      · simp at h4
  refine ⟨⟨rfl, rfl, by decide, by decide, hout⟩, ?_⟩
  exact keyframe_clear_on_shrink wEnv3 (Canvas.mkBlank 2 2) _ wCodecOK 1 1
    rfl rfl (by decide) (by decide) hout

theorem onMakeBuffer_fastpath (env : DecodeEnv) (frames : List BitmapFrame)
    (st : ReaderState) (targetFrame : Int) (h : st.lastDecodeFrame = targetFrame) :
    onMakeBuffer env frames st targetFrame = ⟨st.pixelBuffer, st, 0⟩ := by
  unfold onMakeBuffer
  simp [h]

theorem onMakeBuffer_success_state (env : DecodeEnv) (frames : List BitmapFrame)
    (st : ReaderState) (targetFrame : Int)
    (hs : (onMakeBuffer env frames st targetFrame).result.isSome = true) :
    (onMakeBuffer env frames st targetFrame).state.lastDecodeFrame = targetFrame ∧
    (onMakeBuffer env frames st targetFrame).state.pixelBuffer =
      (onMakeBuffer env frames st targetFrame).result := by
  unfold onMakeBuffer at hs ⊢
  by_cases h1 : st.lastDecodeFrame = targetFrame
  · simp [h1]
  · simp only [if_neg h1] at hs ⊢
    cases hb : st.pixelBuffer with
    | none => simp [hb] at hs
    | some canvas =>
        simp only [hb] at hs ⊢
        by_cases h2 : targetFrame < 0
        · simp [h2]
        · simp only [if_neg h2] at hs ⊢
          by_cases h3 : (replayList env canvas (framesToReplay frames
              (findStartFrame frames st.lastDecodeFrame targetFrame)
              targetFrame.toNat)).ok = true
          · simp [h3]
          · have h3' := Bool.not_eq_true _ |>.mp h3
            simp [h3'] at hs

/-- C5 (amended): if `buffer(F)` returns a result, then calling `buffer(F)`
again with no intervening call returns the same buffer (hence bit-identical
raster content), leaves the reader state unchanged, and performs zero patch
decodes: the fast path is taken because `targetFrame` equals
`lastPaintedFrame`.  (The claim's unconditional form fails when the first
call's decode fails: see the counterexample.) -/
theorem buffer_idempotent_after_success (env : DecodeEnv) (frames : List BitmapFrame)
    (st : ReaderState) (targetFrame : Int)
    (hs : (onMakeBuffer env frames st targetFrame).result.isSome = true) :
    onMakeBuffer env frames (onMakeBuffer env frames st targetFrame).state targetFrame =
      ⟨(onMakeBuffer env frames st targetFrame).result,
        (onMakeBuffer env frames st targetFrame).state, 0⟩ := by
  obtain ⟨hlast, hbuf⟩ := onMakeBuffer_success_state env frames st targetFrame hs
  rw [onMakeBuffer_fastpath env frames _ targetFrame hlast, hbuf]

/-- Witness for C5 (amended): the single-keyframe sequence decodes, and the
second call is the fast path. -/
theorem buffer_idempotent_after_success_witness :
    (onMakeBuffer wEnvOK wFrames2 wState0 0).result.isSome = true ∧
    onMakeBuffer wEnvOK wFrames2 (onMakeBuffer wEnvOK wFrames2 wState0 0).state 0 =
      ⟨(onMakeBuffer wEnvOK wFrames2 wState0 0).result,
        (onMakeBuffer wEnvOK wFrames2 wState0 0).state, 0⟩ :=
  ⟨rfl, buffer_idempotent_after_success wEnvOK wFrames2 wState0 0 rfl⟩

/-- C5 counterexample: when the only patch's `readPixels` fails, the first
`buffer(0)` call leaves `lastDecodeFrame = -1`, so the immediately repeated
`buffer(0)` call does not take the fast path and decodes a patch again (one
`readPixels` invocation, not zero), refuting the claim's "the second call
decodes zero patches". -/
theorem buffer_twice_decodes_again :
    (onMakeBuffer wEnvBad wFrames2
      (onMakeBuffer wEnvBad wFrames2 wState0 0).state 0).decodes ≠ 0 := by
  decide

/-- C7 (amended): a call with a null (unallocated) canvas surfaces a failure
result.  An out-of-range `targetFrame` is, however, not validated: a negative
`targetFrame` (with a non-null canvas and fast path not taken) succeeds,
returning the current canvas content unchanged as if it were the requested
frame, and records `targetFrame` as the last painted frame. -/
theorem invalid_request_behavior (env : DecodeEnv) (frames : List BitmapFrame)
    (st : ReaderState) (targetFrame : Int) :
    (st.pixelBuffer = none → (onMakeBuffer env frames st targetFrame).result = none) ∧
    (targetFrame < 0 → st.lastDecodeFrame ≠ targetFrame →
      ∀ c, st.pixelBuffer = some c →
        (onMakeBuffer env frames st targetFrame).result = some c ∧
        (onMakeBuffer env frames st targetFrame).state.lastDecodeFrame = targetFrame) := by
  constructor
  · intro h
    unfold onMakeBuffer
    by_cases h1 : st.lastDecodeFrame = targetFrame
    · simp [h1, h]
    · simp [h1, h]
  · intro hneg hne c hc
    unfold onMakeBuffer
    simp [hne, hc, hneg]

/-- A reader state that has already painted frame 0 on a 1x1 canvas. -/
def wStatePainted : ReaderState := ⟨some (Canvas.mkBlank 1 1), 0⟩

/-- Witness for C7 (amended): a null canvas fails; target -5 on a painted
state returns the stale canvas and records -5. -/
theorem invalid_request_behavior_witness :
    (onMakeBuffer wEnvOK wFrames2 ⟨none, 0⟩ 1).result = none ∧
    (onMakeBuffer wEnvOK wFrames2 wStatePainted (-5)).result =
      some (Canvas.mkBlank 1 1) ∧
    (onMakeBuffer wEnvOK wFrames2 wStatePainted (-5)).state.lastDecodeFrame = -5 :=
  ⟨(invalid_request_behavior wEnvOK wFrames2 ⟨none, 0⟩ 1).1 rfl,
    ((invalid_request_behavior wEnvOK wFrames2 wStatePainted (-5)).2 (by decide)
      (by decide) (Canvas.mkBlank 1 1) rfl).1,
    ((invalid_request_behavior wEnvOK wFrames2 wStatePainted (-5)).2 (by decide)
      (by decide) (Canvas.mkBlank 1 1) rfl).2⟩

/-- C7 counterexample: `targetFrame = -5` is outside the valid frame range,
the canvas is non-null, and yet the call produces a result (the stale canvas)
rather than surfacing a failure. -/
theorem negative_frame_returns_buffer :
    (onMakeBuffer wEnvOK wFrames2 wStatePainted (-5)).result.isSome = true := rfl

/-- tgfx::YUVPixelFormat: the chroma packing schemes handled by `emitCode`. -/
inductive YUVPixelFormat
  | I420
  | NV12
  deriving DecidableEq

/-- tgfx::YUVColorSpace: the seven recognized color-space/range tags plus an
unrecognized tag standing for any value reaching the `default` arm of the
switch in `onSetData`. -/
inductive YUVColorSpace
  | Unknown
  | BT601_LIMITED
  | BT601_FULL
  | BT709_LIMITED
  | BT709_FULL
  | BT2020_LIMITED
  | BT2020_FULL
  | JPEG_FULL
  deriving DecidableEq

/-- tgfx::Point, over exact rationals in place of IEEE floats. -/
structure Point where
  x : ℚ
  y : ℚ
  deriving DecidableEq

/-- Point::Zero(). -/
def Point.zero : Point := ⟨0, 0⟩

/-- The shader statements `emitCode` appends, abstracted from the emitted
GLSL strings. -/
inductive ShaderStmt
  | sampleLuma
  | sampleChromaU
  | sampleChromaV
  | sampleChromaUV
  | lumaLimitedOffset
  | centerChroma
  | convertRGB
  | declAlphaCoord
  | sampleAlpha
  | correctAlpha
  | clampAlpha
  | outputAlphaOne
  | outputAlphaPremul
  deriving DecidableEq

/-- What one `GLYUVTextureEffect::emitCode` call produces: the sequence of
emitted shader statements and whether an `AlphaStart` uniform was added. -/
structure EmitCodeResult where
  stmts : List ShaderStmt
  alphaStartUniformAdded : Bool
  deriving DecidableEq

/-- GLYUVTextureEffect::emitCode.  `limitedRange` is the test
`IsLimitedYUVColorRange(colorSpace)`; `alphaStart` is the effect's
`alphaStart` point.  When `alphaStart == Point::Zero()` the opaque output
path `vec4(rgb, 1.0) * inputColor` is emitted and no `AlphaStart` uniform is
added; otherwise the alpha-plane lookup, correction and clamp statements and
the premultiplied output path are emitted together with the uniform. -/
def emitCode (format : YUVPixelFormat) (limitedRange : Bool) (alphaStart : Point) :
    EmitCodeResult :=
  let chroma := match format with
    | .I420 => [ShaderStmt.sampleChromaU, ShaderStmt.sampleChromaV]
    | .NV12 => [ShaderStmt.sampleChromaUV]
  let lumaAdj := if limitedRange then [ShaderStmt.lumaLimitedOffset] else []
  if alphaStart = Point.zero then
    ⟨[ShaderStmt.sampleLuma] ++ chroma ++ lumaAdj ++
      [ShaderStmt.centerChroma, ShaderStmt.convertRGB, ShaderStmt.outputAlphaOne],
      false⟩
  else
    ⟨[ShaderStmt.sampleLuma] ++ chroma ++ lumaAdj ++
      [ShaderStmt.centerChroma, ShaderStmt.convertRGB, ShaderStmt.declAlphaCoord,
        ShaderStmt.sampleAlpha, ShaderStmt.correctAlpha, ShaderStmt.clampAlpha,
        ShaderStmt.outputAlphaPremul],
      true⟩

/-- C10: the shader-emission operation treats `alphaStart = (0, 0)` as "no
alpha plane": it emits the opaque output path (alpha forced to 1.0) and adds
no alpha-start uniform; no alpha-plane sample or premultiplied output is
emitted, so an alpha plane whose region begins at the texture origin cannot
be expressed and is rendered fully opaque. -/
theorem emitCode_alphaStart_zero (format : YUVPixelFormat) (limitedRange : Bool) :
    (emitCode format limitedRange ⟨0, 0⟩).alphaStartUniformAdded = false ∧
    ShaderStmt.outputAlphaOne ∈ (emitCode format limitedRange ⟨0, 0⟩).stmts ∧
    ShaderStmt.sampleAlpha ∉ (emitCode format limitedRange ⟨0, 0⟩).stmts ∧
    ShaderStmt.outputAlphaPremul ∉ (emitCode format limitedRange ⟨0, 0⟩).stmts := by
  cases format <;> cases limitedRange <;> decide

/-- The limited-range span divisor of the alpha correction emitted by
`emitCode`: `219.0/255.0 - 1.0/255.0`. -/
def alphaSpan : ℚ := 219 / 255 - 1 / 255

/-- The alpha correction the emitted shader applies to an alpha sample:
`yuv_a = (yuv_a - 16.0/255.0) / (219.0/255.0 - 1.0/255.0)` followed by
`yuv_a = clamp(yuv_a, 0.0, 1.0)` (GLSL clamp = min of max). -/
def correctAlphaSample (a : ℚ) : ℚ :=
  min 1 (max 0 ((a - 16 / 255) / alphaSpan))

/-- C8: an alpha sample of exactly 1.0 maps to exactly 1.0 (its pre-clamp
value exceeds 1), and an alpha sample of exactly 16/255 maps to exactly
0.0, under the correction emitted by the shader. -/
theorem alpha_correction_boundary :
    correctAlphaSample 1 = 1 ∧
    1 < ((1 : ℚ) - 16 / 255) / alphaSpan ∧
    correctAlphaSample (16 / 255) = 0 := by
  refine ⟨?_, by norm_num [alphaSpan], ?_⟩
  · rw [correctAlphaSample]
    norm_num [alphaSpan]
  · rw [correctAlphaSample]
    norm_num [alphaSpan]

/-- The BT.601 limited-range matrix constant (row-major as in the source
float array, read column-major by `setMatrix3f`). -/
def ColorConversion601LimitRange : List ℚ :=
  [1.164384, 1.164384, 1.164384, 0, -0.391762, 2.017232, 1.596027, -0.812968, 0]

/-- The BT.601 full-range matrix constant. -/
def ColorConversion601FullRange : List ℚ :=
  [1, 1, 1, 0, -0.344136, 1.772, 1.402, -0.714136, 0]

/-- The BT.709 limited-range matrix constant. -/
def ColorConversion709LimitRange : List ℚ :=
  [1.164384, 1.164384, 1.164384, 0, -0.213249, 2.112402, 1.792741, -0.532909, 0]

/-- The BT.709 full-range matrix constant. -/
def ColorConversion709FullRange : List ℚ :=
  [1, 1, 1, 0, -0.187324, 1.8556, 1.5748, -0.468124, 0]

/-- The BT.2020 limited-range matrix constant. -/
def ColorConversion2020LimitRange : List ℚ :=
  [1.164384, 1.164384, 1.164384, 0, -0.187326, 2.141772, 1.678674, -0.650424, 0]

/-- The BT.2020 full-range matrix constant. -/
def ColorConversion2020FullRange : List ℚ :=
  [1, 1, 1, 0, -0.164553, 1.8814, 1.4746, -0.571353, 0]

/-- The JPEG full-range matrix constant. -/
def ColorConversionJPEGFullRange : List ℚ :=
  [1, 1, 1, 0, -0.344136, 1.772, 1.402, -0.714136, 0]

/-- The switch statement of `onSetData` as a selection function: the matrix
each recognized tag's arm uploads, `none` for the `default` arm. -/
def conversionMatrix : YUVColorSpace → Option (List ℚ)
  | .BT601_LIMITED => some ColorConversion601LimitRange
  | .BT601_FULL => some ColorConversion601FullRange
  | .BT709_LIMITED => some ColorConversion709LimitRange
  | .BT709_FULL => some ColorConversion709FullRange
  | .BT2020_LIMITED => some ColorConversion2020LimitRange
  | .BT2020_FULL => some ColorConversion2020FullRange
  | .JPEG_FULL => some ColorConversionJPEGFullRange
  | .Unknown => none

/-- A GPU uniform upload performed through the ProgramDataManager. -/
inductive GLUpload
  | set2f (x y : ℚ)
  | setMatrix3f (m : List ℚ)
  deriving DecidableEq

/-- The state `onSetData` reads and writes: the cached previous alpha-start
coordinate and color space, plus a ghost record of the matrix currently
bound on the GPU (updated exactly by `setMatrix3f` uploads, `none` before the
first upload). -/
structure GLYUVState where
  alphaStartPrev : ℚ × ℚ
  colorSpacePrev : YUVColorSpace
  boundMatrix : Option (List ℚ)
  deriving DecidableEq

/-- The first block of `onSetData`: when the `AlphaStart` uniform is valid
and the computed coordinate differs from the cached one, cache it and upload
it with `set2f`. -/
def alphaStartPart (st : GLYUVState) (alphaStartValid : Bool) (alphaStart : ℚ × ℚ) :
    GLYUVState × List GLUpload :=
  if alphaStartValid = true ∧ alphaStart ≠ st.alphaStartPrev then
    ({ st with alphaStartPrev := alphaStart },
      [GLUpload.set2f alphaStart.1 alphaStart.2])
  else (st, [])

/-- GLYUVTextureEffect::onSetData.  `alphaStartValid` models
`alphaStartUniform.isValid()`; `alphaStart` is the texture coordinate
computed by `getTextureCoord`; `colorSpace` is the texture's color space.
Returns the updated state and the list of uploads performed, in order. -/
def onSetData (st : GLYUVState) (alphaStartValid : Bool) (alphaStart : ℚ × ℚ)
    (colorSpace : YUVColorSpace) : GLYUVState × List GLUpload :=
  let p := alphaStartPart st alphaStartValid alphaStart
  if colorSpace ≠ p.1.colorSpacePrev then
    let st2 := { p.1 with colorSpacePrev := colorSpace }
    match conversionMatrix colorSpace with
    | some m => ({ st2 with boundMatrix := some m }, p.2 ++ [GLUpload.setMatrix3f m])
    | none => (st2, p.2)
  else (p.1, p.2)

/-- The matrices uploaded by a list of uploads, in order. -/
def matrixUploads : List GLUpload → List (List ℚ)
  | [] => []
  | GLUpload.setMatrix3f m :: rest => m :: matrixUploads rest
  | GLUpload.set2f _ _ :: rest => matrixUploads rest

theorem alphaStartPart_colorSpacePrev (st : GLYUVState) (alphaStartValid : Bool)
    (alphaStart : ℚ × ℚ) :
    (alphaStartPart st alphaStartValid alphaStart).1.colorSpacePrev =
      st.colorSpacePrev := by
  by_cases h : alphaStartValid = true ∧ alphaStart ≠ st.alphaStartPrev
  · simp [alphaStartPart, h]
  · simp [alphaStartPart, h]

theorem alphaStartPart_boundMatrix (st : GLYUVState) (alphaStartValid : Bool)
    (alphaStart : ℚ × ℚ) :
    (alphaStartPart st alphaStartValid alphaStart).1.boundMatrix =
      st.boundMatrix := by
  by_cases h : alphaStartValid = true ∧ alphaStart ≠ st.alphaStartPrev
  · simp [alphaStartPart, h]
  · simp [alphaStartPart, h]

theorem alphaStartPart_matrixUploads (st : GLYUVState) (alphaStartValid : Bool)
    (alphaStart : ℚ × ℚ) :
    matrixUploads (alphaStartPart st alphaStartValid alphaStart).2 = [] := by
  by_cases h : alphaStartValid = true ∧ alphaStart ≠ st.alphaStartPrev
  · simp [alphaStartPart, h, matrixUploads]
  · simp [alphaStartPart, h, matrixUploads]

theorem matrixUploads_append (a b : List GLUpload) :
    matrixUploads (a ++ b) = matrixUploads a ++ matrixUploads b := by
  induction a with
  | nil => simp [matrixUploads]
  | cons u rest ih =>
      cases u with
      | set2f x y => simp [matrixUploads, ih]
      | setMatrix3f m => simp [matrixUploads, ih]

/-- C4: assuming the upload cache is coherent (whenever the cached previous
tag is one of the seven recognized tags, the matrix bound on the GPU is that
tag's fixed matrix), applying uniforms with a recognized tag uploads exactly
that tag's fixed 3x3 matrix when the tag changed (and nothing when it is
cached, in which case the bound matrix already equals it), leaving the GPU
with exactly the tag's fixed matrix bound; a tag outside the seven performs
no matrix upload and leaves the previously bound matrix state unchanged. -/
theorem onSetData_matrix_selection (st : GLYUVState) (alphaStartValid : Bool)
    (alphaStart : ℚ × ℚ) (colorSpace : YUVColorSpace)
    (hinv : ∀ M, conversionMatrix st.colorSpacePrev = some M →
      st.boundMatrix = some M) :
    matrixUploads (onSetData st alphaStartValid alphaStart colorSpace).2 =
      (if colorSpace = st.colorSpacePrev then []
        else (conversionMatrix colorSpace).toList) ∧
    (∀ M, conversionMatrix colorSpace = some M →
      (onSetData st alphaStartValid alphaStart colorSpace).1.boundMatrix = some M) ∧
    (conversionMatrix colorSpace = none →
      (onSetData st alphaStartValid alphaStart colorSpace).1.boundMatrix =
        st.boundMatrix) := by
  have hp := alphaStartPart_colorSpacePrev st alphaStartValid alphaStart
  have hb := alphaStartPart_boundMatrix st alphaStartValid alphaStart
  have hu := alphaStartPart_matrixUploads st alphaStartValid alphaStart
  by_cases hcs : colorSpace = st.colorSpacePrev
  · simp only [onSetData, hp, hcs, ne_eq, not_true_eq_false, if_false, if_pos rfl]
    refine ⟨hu, ?_, ?_⟩
    · intro M hM
      rw [hb]
      exact hinv M hM
    · intro _
      exact hb
  · simp only [onSetData, hp, ne_eq, hcs, not_false_eq_true, if_true, if_neg hcs]
    cases hm : conversionMatrix colorSpace with
    | some m =>
        simp only [hm, Option.toList_some]
        refine ⟨?_, ?_, ?_⟩
        · rw [matrixUploads_append, hu]
          simp [matrixUploads]
        · intro M hM
          simp only [Option.some.injEq] at hM
          simp [hM]
        · intro hc
          exact absurd hc (by simp)
    | none =>
        simp only [hm, Option.toList_none]
        refine ⟨hu, ?_, ?_⟩
        · intro M hM
          exact absurd hM (by simp)
        · intro _
          exact hb

/-- Witness for C4: a fresh state (nothing bound, previous tag unrecognized)
receiving the BT.601 limited tag; the cache-coherence hypothesis holds
vacuously. -/
theorem onSetData_matrix_selection_witness :
    (∀ M, conversionMatrix (⟨(0, 0), .Unknown, none⟩ : GLYUVState).colorSpacePrev =
        some M → (⟨(0, 0), .Unknown, none⟩ : GLYUVState).boundMatrix = some M) ∧
    (matrixUploads (onSetData ⟨(0, 0), .Unknown, none⟩ false (0, 0)
        .BT601_LIMITED).2 =
      (if YUVColorSpace.BT601_LIMITED =
          (⟨(0, 0), .Unknown, none⟩ : GLYUVState).colorSpacePrev then []
        else (conversionMatrix .BT601_LIMITED).toList) ∧
    (∀ M, conversionMatrix .BT601_LIMITED = some M →
      (onSetData ⟨(0, 0), .Unknown, none⟩ false (0, 0)
        .BT601_LIMITED).1.boundMatrix = some M) ∧
    (conversionMatrix .BT601_LIMITED = none →
      (onSetData ⟨(0, 0), .Unknown, none⟩ false (0, 0)
        .BT601_LIMITED).1.boundMatrix =
        (⟨(0, 0), .Unknown, none⟩ : GLYUVState).boundMatrix)) := by
  have hinv : ∀ M, conversionMatrix
      (⟨(0, 0), .Unknown, none⟩ : GLYUVState).colorSpacePrev = some M →
      (⟨(0, 0), .Unknown, none⟩ : GLYUVState).boundMatrix = some M := by
    intro M hM
    simp [conversionMatrix] at hM
  exact ⟨hinv, onSetData_matrix_selection ⟨(0, 0), .Unknown, none⟩ false (0, 0)
    .BT601_LIMITED hinv⟩

theorem processRects_dims (env : DecodeEnv) (isKey : Bool) :
    ∀ (rects : List BitmapRect) (canvas : Canvas) (firstRead : Bool),
    (processRects env isKey canvas firstRead rects).canvas.width = canvas.width ∧
    (processRects env isKey canvas firstRead rects).canvas.height = canvas.height := by
  intro rects
  induction rects with
  | nil =>
      intro canvas firstRead
      simp [processRects]
  | cons rect rest ih =>
      intro canvas firstRead
      cases henv : env rect.fileBytes with
      | none =>
          simp only [processRects, henv]
          exact ih canvas firstRead
      | some codec =>
          by_cases hok : codec.decodeOK = true
          · simp only [processRects, henv, hok, if_true]
            refine ⟨?_, ?_⟩
            · rw [(ih _ false).1]
              split <;> rfl
            · rw [(ih _ false).2]
              split <;> rfl
          · have hok' := Bool.not_eq_true _ |>.mp hok
            simp only [processRects, henv, hok', Bool.false_eq_true, if_false]
            constructor <;> split <;> rfl

theorem replayList_dims (env : DecodeEnv) :
    ∀ (fs : List BitmapFrame) (canvas : Canvas),
    (replayList env canvas fs).canvas.width = canvas.width ∧
    (replayList env canvas fs).canvas.height = canvas.height := by
  intro fs
  induction fs with
  | nil =>
      intro canvas
      simp [replayList]
  | cons f fs ih =>
      intro canvas
      have hpf := processRects_dims env f.isKeyframe f.bitmaps canvas true
      by_cases hr : (processFrame env canvas f).ok = true
      · have h1 := ih (processFrame env canvas f).canvas
        simp only [replayList, hr, if_true]
        rw [processFrame] at h1 ⊢
        exact ⟨h1.1.trans hpf.1, h1.2.trans hpf.2⟩
      · have hr' := Bool.not_eq_true _ |>.mp hr
        simp only [replayList, hr', Bool.false_eq_true, if_false]
        rw [processFrame]
        exact hpf

theorem findStartAux_squash (frames : List BitmapFrame) (last : Int) :
    ∀ (t : Nat), (t : Int) < last →
    findStartAux frames last t = findStartAux frames (-1) t := by
  intro t
  induction t with
  | zero => intro _; rfl
  | succ t ih =>
      intro h
      have hne1 : ¬(((t + 1 : Nat) : Int) = last + 1) := by push_cast at h ⊢; omega
      have hne2 : ¬(((t + 1 : Nat) : Int) = (-1) + 1) := by push_cast; omega
      have hcond : startCond frames last (t + 1) ↔ startCond frames (-1) (t + 1) := by
        unfold startCond
        constructor
        · rintro (h1 | h2)
          · exact absurd h1 hne1
          · exact Or.inr h2
        · rintro (h1 | h2)
          · exact absurd h1 hne2
          · exact Or.inr h2
      simp only [findStartAux]
      by_cases hc : startCond frames (-1) (t + 1)
      · rw [if_pos (hcond.mpr hc), if_pos hc]
      · rw [if_neg (fun hx => hc (hcond.mp hx)), if_neg hc]
        refine ih ?_
        push_cast at h ⊢
        omega

theorem processRects_clear_congr (env : DecodeEnv) :
    ∀ (rects : List BitmapRect) (c1 c2 : Canvas) (cod : Codec),
    c1.width = c2.width → c1.height = c2.height →
    firstDecodedCodec env rects = some cod →
    ¬(cod.width = c1.width ∧ cod.height = c1.height) →
    processRects env true c1 true rects = processRects env true c2 true rects := by
  intro rects
  induction rects with
  | nil =>
      intro c1 c2 cod hw hh hcod hdim
      simp [firstDecodedCodec] at hcod
  | cons rect rest ih =>
      intro c1 c2 cod hw hh hcod hdim
      cases henv : env rect.fileBytes with
      | none =>
          simp only [firstDecodedCodec, henv] at hcod
          simp only [processRects, henv]
          exact ih c1 c2 cod hw hh hcod hdim
      | some codec =>
          have hcc : codec = cod := by
            simp only [firstDecodedCodec, henv] at hcod
            exact Option.some.inj hcod
          subst hcc
          have heq : Canvas.eraseAll c1 = Canvas.eraseAll c2 := by
            cases c1
            cases c2
            simp only [Canvas.eraseAll, Canvas.mk.injEq] at *
            exact ⟨hw, hh, trivial⟩
          have hb1 : (codec.width == c1.width && codec.height == c1.height) = false := by
            have : ¬((codec.width == c1.width && codec.height == c1.height) = true) := by
              simp only [Bool.and_eq_true, beq_iff_eq]
              exact hdim
            exact Bool.not_eq_true _ |>.mp this
          have hb2 : (codec.width == c2.width && codec.height == c2.height) = false := by
            rw [← hw, ← hh]
            exact hb1
          simp only [processRects, henv, hb1, hb2, Bool.not_false, Bool.and_true,
            Bool.true_and, if_true, heq]

theorem replayList_clear_congr (env : DecodeEnv) (f : BitmapFrame)
    (fs : List BitmapFrame) (c1 c2 : Canvas) (cod : Codec)
    (hw : c1.width = c2.width) (hh : c1.height = c2.height)
    (hkey : f.isKeyframe = true)
    (hcod : firstDecodedCodec env f.bitmaps = some cod)
    (hdim : ¬(cod.width = c1.width ∧ cod.height = c1.height)) :
    replayList env c1 (f :: fs) = replayList env c2 (f :: fs) := by
  have hpf : processFrame env c1 f = processFrame env c2 f := by
    rw [processFrame, processFrame, hkey]
    exact processRects_clear_congr env f.bitmaps c1 c2 cod hw hh hcod hdim
  simp only [replayList, hpf]

theorem onMakeBuffer_replay_eq (env : DecodeEnv) (frames : List BitmapFrame)
    (st : ReaderState) (targetFrame : Int) (canvas : Canvas)
    (hne : st.lastDecodeFrame ≠ targetFrame) (hbuf : st.pixelBuffer = some canvas)
    (hpos : 0 ≤ targetFrame) :
    onMakeBuffer env frames st targetFrame =
      (let r := replayList env canvas (framesToReplay frames
        (findStartFrame frames st.lastDecodeFrame targetFrame) targetFrame.toNat);
      if r.ok then ⟨some r.canvas, ⟨some r.canvas, targetFrame⟩, r.decodes⟩
      else ⟨none, ⟨some r.canvas, -1⟩, r.decodes⟩) := by
  unfold onMakeBuffer
  rw [if_neg hne]
  simp only [hbuf]
  rw [if_neg (not_lt.mpr hpos)]

theorem framesToReplay_cons (frames : List BitmapFrame) (s t : Nat)
    (hst : s ≤ t) (hs : s < frames.length) :
    framesToReplay frames s t =
      frames.getD s default :: (frames.drop (s + 1)).take (t - s) := by
  unfold framesToReplay
  rw [List.drop_eq_getElem_cons hs]
  have h1 : t + 1 - s = (t - s) + 1 := by omega
  rw [h1, List.take_succ_cons, List.getD_eq_getElem frames default hs]

theorem onMakeBuffer_state_cases (env : DecodeEnv) (frames : List BitmapFrame)
    (st : ReaderState) (targetFrame : Int) (canvas : Canvas)
    (hne : st.lastDecodeFrame ≠ targetFrame) (hbuf : st.pixelBuffer = some canvas)
    (hpos : 0 ≤ targetFrame) :
    ∃ c1, (onMakeBuffer env frames st targetFrame).state.pixelBuffer = some c1 ∧
      c1.width = canvas.width ∧ c1.height = canvas.height ∧
      ((onMakeBuffer env frames st targetFrame).state.lastDecodeFrame = targetFrame ∨
        (onMakeBuffer env frames st targetFrame).state.lastDecodeFrame = -1) := by
  rw [onMakeBuffer_replay_eq env frames st targetFrame canvas hne hbuf hpos]
  set r := replayList env canvas (framesToReplay frames
    (findStartFrame frames st.lastDecodeFrame targetFrame) targetFrame.toNat) with hrdef
  have hd := replayList_dims env (framesToReplay frames
    (findStartFrame frames st.lastDecodeFrame targetFrame) targetFrame.toNat) canvas
  rw [← hrdef] at hd
  by_cases hr : r.ok = true
  · refine ⟨r.canvas, ?_, hd.1, hd.2, Or.inl ?_⟩ <;> simp [hr]
  · have hr' := Bool.not_eq_true _ |>.mp hr
    refine ⟨r.canvas, ?_, hd.1, hd.2, Or.inr ?_⟩ <;> simp [hr']

/-- C6 (amended): `buffer(F)` followed by `buffer(F - k)` with `k > 0`
produces the same result and leaves the canvas with the same content as a
cold `buffer(F - k)` on a freshly constructed cache, provided the start
frame resolved for `F - k` is a keyframe whose first decoded patch has
decoded dimensions different from the canvas (so that the replay begins
with an `eraseAll`, discarding the stale content the two runs disagree on).
Without that proviso the two runs can differ: see the counterexample. -/
theorem backward_jump_after_clear (env : DecodeEnv) (frames : List BitmapFrame)
    (W H F t2 : Nat) (cod : Codec)
    (hlt : t2 < F) (hF : F < frames.length)
    (hkey : (frames.getD (findStartAux frames (-1) t2) default).isKeyframe = true)
    (hcod : firstDecodedCodec env
      (frames.getD (findStartAux frames (-1) t2) default).bitmaps = some cod)
    (hdim : ¬(cod.width = W ∧ cod.height = H)) :
    (onMakeBuffer env frames
      (onMakeBuffer env frames ⟨some (Canvas.mkBlank W H), -1⟩ (F : Int)).state
      (t2 : Int)).result =
      (onMakeBuffer env frames ⟨some (Canvas.mkBlank W H), -1⟩ (t2 : Int)).result ∧
    (onMakeBuffer env frames
      (onMakeBuffer env frames ⟨some (Canvas.mkBlank W H), -1⟩ (F : Int)).state
      (t2 : Int)).state.pixelBuffer =
      (onMakeBuffer env frames ⟨some (Canvas.mkBlank W H), -1⟩
        (t2 : Int)).state.pixelBuffer := by
  have hneF : (⟨some (Canvas.mkBlank W H), -1⟩ : ReaderState).lastDecodeFrame ≠
      (F : Int) := by
    show (-1 : Int) ≠ (F : Int)
    omega
  obtain ⟨c1, hc1buf, hc1w, hc1h, hc1last⟩ :=
    onMakeBuffer_state_cases env frames ⟨some (Canvas.mkBlank W H), -1⟩ (F : Int)
      (Canvas.mkBlank W H) hneF rfl (Int.natCast_nonneg F)
  have hne2 : (onMakeBuffer env frames ⟨some (Canvas.mkBlank W H), -1⟩
      (F : Int)).state.lastDecodeFrame ≠ (t2 : Int) := by
    rcases hc1last with h | h <;> rw [h] <;> omega
  have hstart1 : findStartFrame frames (onMakeBuffer env frames
      ⟨some (Canvas.mkBlank W H), -1⟩ (F : Int)).state.lastDecodeFrame (t2 : Int) =
      findStartAux frames (-1) t2 := by
    rcases hc1last with h | h
    · rw [h, findStartFrame_natCast]
      exact findStartAux_squash frames (F : Int) t2 (by exact_mod_cast hlt)
    · rw [h, findStartFrame_natCast]
  have hne3 : (⟨some (Canvas.mkBlank W H), -1⟩ : ReaderState).lastDecodeFrame ≠
      (t2 : Int) := by
    show (-1 : Int) ≠ (t2 : Int)
    omega
  rw [onMakeBuffer_replay_eq env frames _ (t2 : Int) c1 hne2 hc1buf
      (Int.natCast_nonneg t2),
    onMakeBuffer_replay_eq env frames ⟨some (Canvas.mkBlank W H), -1⟩ (t2 : Int)
      (Canvas.mkBlank W H) hne3 rfl (Int.natCast_nonneg t2)]
  simp only [hstart1, findStartFrame_natCast, Int.toNat_natCast]
  have hsl : findStartAux frames (-1) t2 ≤ t2 := findStartAux_le frames (-1) t2
  have hslen : findStartAux frames (-1) t2 < frames.length := by omega
  rw [framesToReplay_cons frames (findStartAux frames (-1) t2) t2 hsl hslen]
  have hrw := replayList_clear_congr env
    (frames.getD (findStartAux frames (-1) t2) default)
    ((frames.drop (findStartAux frames (-1) t2 + 1)).take
      (t2 - findStartAux frames (-1) t2))
    c1 (Canvas.mkBlank W H) cod (by rw [hc1w]) (by rw [hc1h]) hkey hcod
    (by rw [hc1w, hc1h]; exact hdim)
  rw [hrw]
  exact ⟨rfl, rfl⟩

/-- Witness frame table for C6 (amended): a shrinking keyframe then a delta
frame. -/
def wFramesC6 : List BitmapFrame :=
  [⟨true, [⟨0, 0, [0]⟩]⟩, ⟨false, [⟨1, 1, [1]⟩]⟩]

/-- Witness for C6 (amended): `buffer(1)` then `buffer(0)` coincides with a
cold `buffer(0)` on a 2x2 canvas, the start keyframe being 1x1. -/
theorem backward_jump_after_clear_witness :
    ((0 : Nat) < 1 ∧ 1 < wFramesC6.length ∧
      (wFramesC6.getD (findStartAux wFramesC6 (-1) 0) default).isKeyframe = true ∧
      firstDecodedCodec wEnvOK
        (wFramesC6.getD (findStartAux wFramesC6 (-1) 0) default).bitmaps =
        some wCodecOK ∧
      ¬(wCodecOK.width = 2 ∧ wCodecOK.height = 2)) ∧
    ((onMakeBuffer wEnvOK wFramesC6
      (onMakeBuffer wEnvOK wFramesC6 ⟨some (Canvas.mkBlank 2 2), -1⟩
        ((1 : Nat) : Int)).state ((0 : Nat) : Int)).result =
      (onMakeBuffer wEnvOK wFramesC6 ⟨some (Canvas.mkBlank 2 2), -1⟩
        ((0 : Nat) : Int)).result ∧
    (onMakeBuffer wEnvOK wFramesC6
      (onMakeBuffer wEnvOK wFramesC6 ⟨some (Canvas.mkBlank 2 2), -1⟩
        ((1 : Nat) : Int)).state ((0 : Nat) : Int)).state.pixelBuffer =
      (onMakeBuffer wEnvOK wFramesC6 ⟨some (Canvas.mkBlank 2 2), -1⟩
        ((0 : Nat) : Int)).state.pixelBuffer) :=
  ⟨⟨by decide, by decide, rfl, rfl, by decide⟩,
    backward_jump_after_clear wEnvOK wFramesC6 2 2 1 0 wCodecOK (by decide)
      (by decide) rfl rfl (by decide)⟩

/-- Counterexample frame table for C6: two non-keyframe frames, each
painting one 1x1 patch of a 2x1 canvas. -/
def cFramesC6 : List BitmapFrame :=
  [⟨false, [⟨0, 0, [0]⟩]⟩, ⟨false, [⟨1, 0, [1]⟩]⟩]

/-- Counterexample decode environment for C6: bytes `[0]` decode to pixel
value 1, bytes `[1]` to pixel value 2, both 1x1. -/
def cEnvC6 : DecodeEnv := fun bs =>
  if bs = [0] then some ⟨1, 1, true, fun _ _ => 1⟩
  else if bs = [1] then some ⟨1, 1, true, fun _ _ => 2⟩
  else none

/-- C6 counterexample: with two delta frames (no keyframes), `buffer(1)`
then `buffer(0)` leaves pixel (0,1) holding frame 1's value 2, while a cold
`buffer(0)` leaves it transparent (0) — the warm backward jump does not
reproduce the cold call's canvas. -/
theorem backward_jump_differs :
    (onMakeBuffer cEnvC6 cFramesC6
      (onMakeBuffer cEnvC6 cFramesC6 ⟨some (Canvas.mkBlank 2 1), -1⟩ 1).state
      0).result.map (fun c => c.data 0 1) ≠
    (onMakeBuffer cEnvC6 cFramesC6 ⟨some (Canvas.mkBlank 2 1), -1⟩
      0).result.map (fun c => c.data 0 1) := by
  decide
